import Mathlib

/-!
Verification development for the clio_visualization repository.

The Python sources are shallowly embedded over `List Char` strings:

* `extract_xml_field_d` embeds `data_parser.extract_xml_field`;
* `extract_xml_field_h` embeds `hierarchy_parser_old.extract_xml_field`
  (primary pattern plus the malformed-opening fallback pattern);
* `parse_xml_robust_with` embeds `parse_xml_robust` (both copies share the
  structure and differ only in the extractor used);
* `parse_item_ids` embeds the membership parser, instrumented with flags
  recording whether a parse attempt was made and whether the
  could-not-parse diagnostic was printed;
* `assembleCluster`, `buildGroups`, `materializeFrom`, `buildRound`,
  `buildHierarchy` embed `build_hierarchy_tree` from
  `hierarchy_parser_old.py`;
* `resolve_level3_from_r1` / `resolve_level3_from_r2` embed the per-cluster
  ancestor-resolution loops of
  `generate_embeddings.generate_embeddings_for_level`.

Regex use in the sources is restricted to the two concrete patterns of
`extract_xml_field`; their `re.search` semantics (leftmost match, lazy
groups, DOTALL) are embedded directly as substring searches, as justified
in the doc comments of `extractPrimary` and `extractFallback`.
-/

/-- Python strings are modelled as lists of characters. -/
abbrev Str := List Char

/-- The backtick character (code 96). -/
def btChar : Char := Char.ofNat 96

/-- The apostrophe / single-quote character (code 39). -/
def sqChar : Char := Char.ofNat 39

/-- The double-quote character (code 34). -/
def dqChar : Char := Char.ofNat 34

/-- The backslash character (code 92). -/
def bsChar : Char := Char.ofNat 92

/-- Whitespace characters stripped by Python `str.strip()` (ASCII subset:
space, tab, newline, carriage return, vertical tab, form feed). -/
def isPySpace (c : Char) : Bool :=
  decide (c = ' ' ∨ c = '\t' ∨ c = '\n' ∨ c = '\r' ∨ c = Char.ofNat 11 ∨ c = Char.ofNat 12)

/-- Remove characters satisfying `p` from both ends of a string, the
semantics of Python `str.strip(chars)` where `p` tests membership in the
character set. -/
def stripChars (p : Char → Bool) (l : Str) : Str :=
  ((l.dropWhile p).reverse.dropWhile p).reverse

/-- Python `str.strip(cs)` where `cs` is read as a character set. -/
def pyStripSet (cs : List Char) (l : Str) : Str :=
  stripChars (fun c => decide (c ∈ cs)) l

/-- Python `str.strip()` (no argument): strip whitespace from both ends. -/
def stripWs (l : Str) : Str :=
  stripChars isPySpace l

/-- The character set of the Python literal `'```xml'` used as a strip
argument: backtick, `x`, `m`, `l`. -/
def fenceChars : List Char := [btChar, 'x', 'm', 'l']

/-- The character set of the Python literal `'```'`: just the backtick. -/
def btOnly : List Char := [btChar]

/-- The cleanup step of `parse_xml_robust` (both copies, data_parser.py
line 83 and hierarchy_parser_old.py line 95):
`xml_string.strip('```xml').strip('```').strip()`. -/
def cleanupXml (l : Str) : Str :=
  stripWs (pyStripSet btOnly (pyStripSet fenceChars l))

/-- Whether `needle` is a prefix of `hay`. -/
def isPre : Str → Str → Bool
  | [], _ => true
  | _ :: _, [] => false
  | a :: ns, b :: hs => decide (a = b) && isPre ns hs

/-- Index of the first occurrence of `needle` as a contiguous substring of
`hay`, if any. -/
def findSub (needle : Str) : Str → Option Nat
  | [] => if isPre needle [] then some 0 else Option.none
  | c :: t =>
    if isPre needle (c :: t) then some 0
    else (findSub needle t).map (fun k => k + 1)

/-- Semantics of `re.search(f'<fld>(.*?)</fld>', text, re.DOTALL)`: the
pattern begins with the literal `<fld>`, so the leftmost match starts at
the first occurrence of the opening tag; the lazy group then ends at the
first occurrence of the closing tag after it (DOTALL lets `.` cross
newlines).  If the closing tag never occurs after the first opening tag it
occurs after no later one either, so the search fails.  Returns
`group(1)`. -/
def extractPrimary (text fld : Str) : Option Str :=
  let openT : Str := '<' :: (fld ++ ['>'])
  let closeT : Str := '<' :: '/' :: (fld ++ ['>'])
  match findSub openT text with
  | Option.none => Option.none
  | some i =>
    let rest := text.drop (i + openT.length)
    match findSub closeT rest with
    | Option.none => Option.none
    | some j => some (rest.take j)

/-- Semantics of `re.search(f'<fld([^>]*?)(.*?)</fld>', text, re.DOTALL)`:
the leftmost match starts at the first occurrence of the fragment `<fld`.
Both groups are lazy, and on failure of the closing literal the engine
backtracks into the LAST lazy group first, so group 1 (`[^>]*?`) stays
empty whenever `</fld>` occurs anywhere after the fragment — `(.*?)` under
DOTALL can always reach it.  Hence `group(2)` spans from right after
`<fld` to the first later `</fld>`, and the match fails only when no
closing tag follows the first fragment occurrence. -/
def extractFallback (text fld : Str) : Option Str :=
  let openFrag : Str := '<' :: fld
  let closeT : Str := '<' :: '/' :: (fld ++ ['>'])
  match findSub openFrag text with
  | Option.none => Option.none
  | some i =>
    let rest := text.drop (i + openFrag.length)
    match findSub closeT rest with
    | Option.none => Option.none
    | some j => some (rest.take j)

/-- Recognize one HTML entity at the head of `l`, returning the decoded
character and the remaining input.  Models `html.unescape` on the standard
XML entities (with and without trailing semicolon where HTML5 allows it);
exotic named entities are outside the fragment exercised by this
repository's data paths. -/
def entityAt (l : Str) : Option (Char × Str) :=
  if isPre (("amp;").data) l then some ('&', l.drop 4)
  else if isPre (("amp").data) l then some ('&', l.drop 3)
  else if isPre (("lt;").data) l then some ('<', l.drop 3)
  else if isPre (("lt").data) l then some ('<', l.drop 2)
  else if isPre (("gt;").data) l then some ('>', l.drop 3)
  else if isPre (("gt").data) l then some ('>', l.drop 2)
  else if isPre (("quot;").data) l then some (dqChar, l.drop 5)
  else if isPre (("quot").data) l then some (dqChar, l.drop 4)
  else if isPre (("apos;").data) l then some (sqChar, l.drop 5)
  else if isPre (("#39;").data) l then some (sqChar, l.drop 4)
  else Option.none

/-- Fuel-driven worker for `unescape`; the fuel is an upper bound on the
number of characters consumed, each step consuming at least one. -/
def unescapeAux : Nat → Str → Str
  | 0, l => l
  | _ + 1, [] => []
  | fuel + 1, c :: rest =>
    if c = '&' then
      match entityAt rest with
      | some (d, r) => d :: unescapeAux fuel r
      | Option.none => c :: unescapeAux fuel rest
    else c :: unescapeAux fuel rest

/-- Models `html.unescape` on the entity fragment of `entityAt`. -/
def unescape (l : Str) : Str :=
  unescapeAux l.length l

/-- Embeds `data_parser.extract_xml_field` (lines 9-18): primary pattern
only; on a match, strip whitespace then decode entities, else return the
empty string. -/
def extract_xml_field_d (text fld : Str) : Str :=
  match extractPrimary text fld with
  | some g => unescape (stripWs g)
  | Option.none => []

/-- Embeds `hierarchy_parser_old.extract_xml_field` (lines 10-30): primary
pattern, then the malformed-opening fallback pattern, else empty. -/
def extract_xml_field_h (text fld : Str) : Str :=
  match extractPrimary text fld with
  | some g => unescape (stripWs g)
  | Option.none =>
    match extractFallback text fld with
    | some g => unescape (stripWs g)
    | Option.none => []

/-- The individual-cluster field set of `parse_xml_robust`. -/
def individualFields : List Str :=
  [ ("common_topic").data, ("keywords").data, ("common_engagement").data,
    ("common_redirection").data, ("synthesis").data, ("cluster_name").data ]

/-- The meta-cluster field set of `parse_xml_robust`. -/
def metaFields : List Str :=
  [ ("overarching_theme").data, ("meta_keywords").data, ("engagement_tactics").data,
    ("redirection_methods").data, ("synthesis_of_clusters").data, ("meta_cluster_name").data ]

/-- Embeds `parse_xml_robust` (identical in both files up to the extractor
used, hence parameterized by it).  An absent raw value (`None`/NaN) is
modelled as `Option.none` and yields the EMPTY dict `{}` exactly as the
code's early return does; a present value is cleaned up and every field of
the selected field set is extracted.  The result dict is an association
list in field order. -/
def parse_xml_robust_with (ex : Str → Str → Str) (raw : Option Str) (isMeta : Bool) :
    List (Str × Str) :=
  match raw with
  | Option.none => []
  | some s =>
    let s2 := cleanupXml s
    (if isMeta then metaFields else individualFields).map (fun f => (f, ex s2 f))

/-- `data_parser.parse_xml_robust` (lines 72-106). -/
def parse_xml_robust_d (raw : Option Str) (isMeta : Bool) : List (Str × Str) :=
  parse_xml_robust_with extract_xml_field_d raw isMeta

/-- `hierarchy_parser_old.parse_xml_robust` (lines 84-118). -/
def parse_xml_robust_h (raw : Option Str) (isMeta : Bool) : List (Str × Str) :=
  parse_xml_robust_with extract_xml_field_h raw isMeta

/-- Python `dict.get(k, d)` on an association list. -/
def pyGet (m : List (Str × Str)) (k d : Str) : Str :=
  match m with
  | [] => d
  | (k2, v) :: r => if k2 = k then v else pyGet r k d

/-- Values of the Python-literal fragment handled by the membership
parser: strings, ints, bools, `None`, lists and tuples.  This is the
fragment of `ast.literal_eval` the `item_ids` column exercises (floats,
dicts, sets and bytes fall outside it and are treated as evaluation
failures). -/
inductive PyVal where
  | str (s : Str)
  | int (n : Int)
  | bool (b : Bool)
  | none
  | list (xs : List PyVal)
  | tuple (xs : List PyVal)

/-- Decimal digits of a natural number. -/
def natStr (n : Nat) : Str :=
  Nat.toDigits 10 n

/-- Python `str()` of an int. -/
def intStr (n : Int) : Str :=
  if n < 0 then '-' :: natStr n.natAbs else natStr n.natAbs

/-- Comma-space join, as in Python container reprs. -/
def joinComma : List Str → Str
  | [] => []
  | [x] => x
  | x :: xs => x ++ (", ").data ++ joinComma xs

mutual
/-- Python `str()` on a literal value (containers print their elements
with `repr`; string escaping inside reprs is not modelled). -/
def pyStr : PyVal → Str
  | .str s => s
  | .int n => intStr n
  | .bool true => ("True").data
  | .bool false => ("False").data
  | .none => ("None").data
  | .list xs => '[' :: (joinComma (pyReprList xs) ++ [']'])
  | .tuple [x] => '(' :: (pyRepr x ++ [',', ')'])
  | .tuple xs => '(' :: (joinComma (pyReprList xs) ++ [')'])

/-- Python `repr()` on a literal value. -/
def pyRepr : PyVal → Str
  | .str s => sqChar :: (s ++ [sqChar])
  | .int n => intStr n
  | .bool true => ("True").data
  | .bool false => ("False").data
  | .none => ("None").data
  | .list xs => '[' :: (joinComma (pyReprList xs) ++ [']'])
  | .tuple [x] => '(' :: (pyRepr x ++ [',', ')'])
  | .tuple xs => '(' :: (joinComma (pyReprList xs) ++ [')'])

/-- `repr` of each element of a list. -/
def pyReprList : List PyVal → List Str
  | [] => []
  | v :: vs => pyRepr v :: pyReprList vs
end

/-- Python truthiness (`bool(x)`) on the literal fragment. -/
def pyTruthy : PyVal → Bool
  | .str s => !s.isEmpty
  | .int n => decide (n ≠ 0)
  | .bool b => b
  | .none => false
  | .list xs => !xs.isEmpty
  | .tuple xs => !xs.isEmpty

/-- Python iteration `for item in v`: lists and tuples yield their
elements, strings yield their characters as one-character strings, other
values raise `TypeError` (modelled as `Option.none`). -/
def pyIter : PyVal → Option (List PyVal)
  | .list xs => some xs
  | .tuple xs => some xs
  | .str s => some (s.map (fun c => .str [c]))
  | _ => Option.none

/-- Whether a character is an ASCII decimal digit. -/
def isDigitCh (c : Char) : Bool :=
  decide ('0' ≤ c ∧ c ≤ '9')

/-- Drop leading Python whitespace. -/
def skipWs (l : Str) : Str :=
  l.dropWhile isPySpace

/-- Decode one character of a Python string literal body after a
backslash; unknown escapes keep both characters, as Python does. -/
def escChar (e : Char) : Option Char :=
  if e = 'n' then some '\n'
  else if e = 't' then some '\t'
  else if e = 'r' then some '\r'
  else if e = bsChar then some bsChar
  else if e = sqChar then some sqChar
  else if e = dqChar then some dqChar
  else Option.none

/-- Parse the body of a quoted string literal up to the closing quote
`q`. -/
def parseStrLit : Nat → Char → Str → Option (Str × Str)
  | 0, _, _ => Option.none
  | _ + 1, _, [] => Option.none
  | fuel + 1, q, c :: rest =>
    if c = q then some ([], rest)
    else if c = bsChar then
      match rest with
      | [] => Option.none
      | e :: rest2 =>
        match escChar e with
        | some d =>
          (parseStrLit fuel q rest2).map (fun p => (d :: p.1, p.2))
        | Option.none =>
          (parseStrLit fuel q rest2).map (fun p => (c :: e :: p.1, p.2))
    else (parseStrLit fuel q rest).map (fun p => (c :: p.1, p.2))

/-- Parse a nonempty digit run into a natural number. -/
def parseNatLit (l : Str) : Option (Nat × Str) :=
  let digits := l.takeWhile isDigitCh
  if digits = [] then Option.none
  else some (digits.foldl (fun a c => a * 10 + (c.toNat - ('0').toNat)) 0,
             l.dropWhile isDigitCh)

mutual
/-- Recursive-descent evaluator for the Python-literal fragment of
`ast.literal_eval` used by the membership column: optionally signed ints,
quoted strings, `True`/`False`/`None`, lists and tuples (with Python's
parenthesization rule: `(x)` is just `x`, a tuple needs a comma).
Evaluation failure (including empty input) models the exception
`ast.literal_eval` raises. -/
def parseVal : Nat → Str → Option (PyVal × Str)
  | 0, _ => Option.none
  | fuel + 1, l =>
    match skipWs l with
    | [] => Option.none
    | c :: rest =>
      if c = '[' then
        match parseItems fuel ']' rest with
        | some (xs, _, r) => some (.list xs, r)
        | Option.none => Option.none
      else if c = '(' then
        match parseItems fuel ')' rest with
        | some ([x], false, r) => some (x, r)
        | some (xs, _, r) => some (.tuple xs, r)
        | Option.none => Option.none
      else if c = sqChar ∨ c = dqChar then
        (parseStrLit fuel c rest).map (fun p => (.str p.1, p.2))
      else if c = '-' then
        match parseVal fuel rest with
        | some (.int n, r) => some (.int (-n), r)
        | some (.bool b, r) => some (.int (-(if b then 1 else 0)), r)
        | _ => Option.none
      else if c = '+' then
        match parseVal fuel rest with
        | some (.int n, r) => some (.int n, r)
        | some (.bool b, r) => some (.int (if b then 1 else 0), r)
        | _ => Option.none
      else if isDigitCh c then
        (parseNatLit (c :: rest)).map (fun p => (.int (Int.ofNat p.1), p.2))
      else if isPre (("True").data) (c :: rest) then
        some (.bool true, (c :: rest).drop 4)
      else if isPre (("False").data) (c :: rest) then
        some (.bool false, (c :: rest).drop 5)
      else if isPre (("None").data) (c :: rest) then
        some (.none, (c :: rest).drop 4)
      else Option.none

/-- Parse a comma-separated item sequence up to the closing bracket
`close`; also reports whether any comma was seen (Python's tuple/paren
disambiguation). -/
def parseItems : Nat → Char → Str → Option (List PyVal × Bool × Str)
  | 0, _, _ => Option.none
  | fuel + 1, close, l =>
    match skipWs l with
    | [] => Option.none
    | c :: rest =>
      if c = close then some ([], false, rest)
      else
        match parseVal fuel (c :: rest) with
        | Option.none => Option.none
        | some (v, r) =>
          match skipWs r with
          | [] => Option.none
          | d :: r2 =>
            if d = close then some ([v], false, r2)
            else if d = ',' then
              match parseItems fuel close r2 with
              | some (xs, _, r3) => some (v :: xs, true, r3)
              | Option.none => Option.none
            else Option.none
end

/-- Models `ast.literal_eval` on the fragment of `parseVal`: the whole
input must be consumed (up to trailing whitespace). -/
def literalEval (s : Str) : Option PyVal :=
  match parseVal (2 * s.length + 2) s with
  | some (v, r) => if skipWs r = [] then some v else Option.none
  | Option.none => Option.none

/-- One member of a cluster's membership list: the dicts
`{'item_id': ..., 'truth_value': ...}` built by `parse_item_ids`. -/
structure Member where
  item_id : Str
  truth_value : Bool
deriving DecidableEq

/-- Result of the membership parser, instrumented with the control-flow
facts the spec speaks about: `attempted` records whether the
literal-evaluation strategy was invoked (it is, for every present raw
value), `diag` records whether the `Could not parse item_ids` diagnostic
of the final fallback was printed. -/
structure ParseResult where
  members : List Member
  attempted : Bool
  diag : Bool
deriving DecidableEq

/-- Element conversion of strategy 1 (`parse_item_ids` lines 35-46 of
data_parser.py): tuples of length at least two become members with
stringified first component and truthiness of the second; bare strings
and ints (bools included, being Python ints) become legacy members with
flag `False`; anything else is skipped. -/
def convItem : PyVal → Option Member
  | .tuple (a :: b :: _) => some ⟨pyStr a, pyTruthy b⟩
  | .tuple _ => Option.none
  | .str s => some ⟨s, false⟩
  | .int n => some ⟨intStr n, false⟩
  | .bool b => some ⟨pyStr (.bool b), false⟩
  | _ => Option.none

/-- The quote characters stripped by `item.strip("'\"")`. -/
def quoteChars : List Char := [sqChar, dqChar]

/-- Strategy 2 of `parse_item_ids` (lines 49-66): strip the raw text; if
it is bracket-enclosed, cut the brackets, split on commas, strip padding
and quotes from each piece and keep the non-empty ones (returning without
a diagnostic); otherwise fall through to the diagnostic fallback that
returns the empty list. -/
def strat2 (s : Str) : ParseResult :=
  let cleaned := stripWs s
  if cleaned.head? = some '[' ∧ cleaned.getLast? = some ']' then
    let inner := (cleaned.drop 1).dropLast
    let pieces := inner.splitOn ','
    let ms := pieces.filterMap (fun it =>
      let it2 := pyStripSet quoteChars (stripWs it)
      if it2 = [] then Option.none else some (⟨it2, false⟩ : Member))
    ⟨ms, true, false⟩
  else ⟨[], true, true⟩

/-- Embeds `parse_item_ids` (data_parser.py lines 20-70,
hierarchy_parser_old.py lines 32-82; the two copies are identical).  An
absent (`None`/NaN) raw value is `Option.none` and short-circuits; a
present value is fed to the literal-evaluation strategy, falling back to
the bracket-splitting strategy and finally to the diagnostic empty
result. -/
def parse_item_ids (raw : Option Str) : ParseResult :=
  match raw with
  | Option.none => ⟨[], false, false⟩
  | some s =>
    match literalEval s with
    | some v =>
      match pyIter v with
      | some items => ⟨items.filterMap convItem, true, false⟩
      | Option.none => strat2 s
    | Option.none => strat2 s

/-- The `meta_analyses['round_k']` block attached to each cluster
(`build_hierarchy_tree`, hierarchy_parser_old.py lines 157-182). -/
structure MetaInfo where
  theme : Str
  keywords : Str
  tactics : Str
  redirection : Str
  synthesis : Str
  name : Str
deriving DecidableEq

/-- An assembled individual cluster (the `cluster_data` dict of
`build_hierarchy_tree`, lines 142-183).  The `parent_names` mapping is
flattened into the three `parent_k` fields and the `meta_analyses` mapping
into the three `meta_k` fields. -/
structure Cluster where
  id : Nat
  name : Str
  description : Str
  topic : Str
  keywords : Str
  engagement : Str
  redirection : Str
  item_ids : List Member
  level : Nat
  parent_1 : Str
  parent_2 : Str
  parent_3 : Str
  meta_1 : MetaInfo
  meta_2 : MetaInfo
  meta_3 : MetaInfo
deriving DecidableEq

/-- One raw input row, the five columns used by the parsers; an absent
(NaN) cell is `Option.none`. -/
structure Row where
  item_ids : Option Str
  cluster_name : Option Str
  round_1_cluster_name : Option Str
  round_2_cluster_name : Option Str
  round_3_cluster_name : Option Str
deriving DecidableEq

/-- Build one `meta_analyses` block from a decoded meta dict. -/
def mkMetaInfo (m : List (Str × Str)) : MetaInfo where
  theme := pyGet m (("overarching_theme").data) []
  keywords := pyGet m (("meta_keywords").data) []
  tactics := pyGet m (("engagement_tactics").data) []
  redirection := pyGet m (("redirection_methods").data) []
  synthesis := pyGet m (("synthesis_of_clusters").data) []
  name := pyGet m (("meta_cluster_name").data) []

/-- Embeds the per-row assembly of `build_hierarchy_tree`
(hierarchy_parser_old.py lines 129-185): decode the four analysis columns,
parse the membership column, and build the cluster dict.  `idx` is the
0-based row position used as the cluster id. -/
def assembleCluster (idx : Nat) (row : Row) : Cluster :=
  let ca := parse_xml_robust_h row.cluster_name false
  let m1 := parse_xml_robust_h row.round_1_cluster_name true
  let m2 := parse_xml_robust_h row.round_2_cluster_name true
  let m3 := parse_xml_robust_h row.round_3_cluster_name true
  { id := idx
    name := pyGet ca (("cluster_name").data) ((("Cluster ").data) ++ natStr idx)
    description := pyGet ca (("synthesis").data) []
    topic := pyGet ca (("common_topic").data) []
    keywords := pyGet ca (("keywords").data) []
    engagement := pyGet ca (("common_engagement").data) []
    redirection := pyGet ca (("common_redirection").data) []
    item_ids := (parse_item_ids row.item_ids).members
    level := 0
    parent_1 := pyGet m1 (("meta_cluster_name").data) []
    parent_2 := pyGet m2 (("meta_cluster_name").data) []
    parent_3 := pyGet m3 (("meta_cluster_name").data) []
    meta_1 := mkMetaInfo m1
    meta_2 := mkMetaInfo m2
    meta_3 := mkMetaInfo m3 }

/-- The value stored per group key: appended member ids plus the
first-wins `meta_data` block (`defaultdict(lambda: {'clusters': [],
'meta_data': None})`). -/
structure GroupData where
  ids : List Nat
  meta : Option MetaInfo
deriving DecidableEq

/-- Append cluster id `i` to the group keyed `n` (creating it at the end
if new, as Python dict insertion order does) and set the first-wins
`meta_data` block (lines 203-216). -/
def updateGroup : List (Str × GroupData) → Str → Nat → MetaInfo → List (Str × GroupData)
  | [], n, i, m => [(n, ⟨[i], some m⟩)]
  | (k, d) :: rest, n, i, m =>
    if k = n then
      (k, ⟨d.ids ++ [i], match d.meta with | some x => some x | Option.none => some m⟩) :: rest
    else (k, d) :: updateGroup rest n i m

/-- One grouping step of the loop at lines 198-216: a cluster whose round
parent name is empty (falsy) is skipped. -/
def groupStep (sel : Cluster → Str) (ms : Cluster → MetaInfo)
    (gs : List (Str × GroupData)) (c : Cluster) : List (Str × GroupData) :=
  if sel c = [] then gs else updateGroup gs (sel c) c.id (ms c)

/-- The round-k groups dict after the grouping loop, in key-insertion
(first-seen) order. -/
def buildGroups (sel : Cluster → Str) (ms : Cluster → MetaInfo)
    (clusters : List Cluster) : List (Str × GroupData) :=
  clusters.foldl (groupStep sel ms) []

/-- A meta-cluster dict (lines 229-240 and analogues). -/
structure MetaCluster where
  id : Str
  name : Str
  level : Nat
  description : Str
  topic : Str
  keywords : Str
  tactics : Str
  redirection : Str
  children : List Nat
  child_count : Nat
deriving DecidableEq

/-- Python `sorted` on the collected id list (ascending). -/
def sortAsc (l : List Nat) : List Nat :=
  List.insertionSort (· ≤ ·) l

/-- Build one meta-cluster object from a kept group (lines 229-240):
`i` is the number of meta-clusters of this round created so far. -/
def mkMeta (rKey : Str) (lvl : Nat) (i : Nat) (n : Str) (d : GroupData) : MetaCluster where
  id := rKey ++ natStr i
  name := n
  level := lvl
  description := match d.meta with | some m => m.synthesis | Option.none => []
  topic := match d.meta with | some m => m.theme | Option.none => []
  keywords := match d.meta with | some m => m.keywords | Option.none => []
  tactics := match d.meta with | some m => m.tactics | Option.none => []
  redirection := match d.meta with | some m => m.redirection | Option.none => []
  children := sortAsc d.ids
  child_count := d.ids.length

/-- The materialization loop for one round (lines 226-241 and analogues):
walk the groups in insertion order, skip keys that are empty or the
literal `Unknown`, and number the kept ones consecutively starting at
`i`. -/
def materializeFrom (rKey : Str) (lvl : Nat) : Nat → List (Str × GroupData) → List MetaCluster
  | _, [] => []
  | i, (n, d) :: rest =>
    if n = [] ∨ n = ("Unknown").data then materializeFrom rKey lvl i rest
    else mkMeta rKey lvl i n d :: materializeFrom rKey lvl (i + 1) rest

/-- Descending comparison on child counts, the sort key of line 281
(`sort(key=..., reverse=True)`). -/
def countGe (a b : MetaCluster) : Prop :=
  b.child_count ≤ a.child_count

instance : DecidableRel countGe := fun a b => Nat.decLe b.child_count a.child_count

instance : IsTotal MetaCluster countGe :=
  ⟨fun a b => Nat.le_total b.child_count a.child_count⟩

instance : IsTrans MetaCluster countGe :=
  ⟨fun _ _ _ h1 h2 => Nat.le_trans h2 h1⟩

/-- The final per-round sort (line 281): Python `list.sort` is stable and
`reverse=True` keeps equal elements in their original order, which is
exactly insertion sort with the non-strict descending comparison. -/
def sortByCountDesc (l : List MetaCluster) : List MetaCluster :=
  List.insertionSort countGe l

/-- One round of the hierarchy builder: group, materialize, sort. -/
def buildRound (sel : Cluster → Str) (ms : Cluster → MetaInfo)
    (rKey : Str) (lvl : Nat) (clusters : List Cluster) : List MetaCluster :=
  sortByCountDesc (materializeFrom rKey lvl 0 (buildGroups sel ms clusters))

/-- The pre-sort meta-cluster sequence of one round (everything of
`buildRound` except the final sort). -/
def roundPre (sel : Cluster → Str) (ms : Cluster → MetaInfo)
    (rKey : Str) (lvl : Nat) (clusters : List Cluster) : List MetaCluster :=
  materializeFrom rKey lvl 0 (buildGroups sel ms clusters)

/-- The three meta-clustering rounds. -/
inductive Round where
  | r1
  | r2
  | r3
deriving DecidableEq

/-- The `parent_names` entry the grouping loop reads for a round. -/
def Round.parentOf : Round → Cluster → Str
  | .r1 => Cluster.parent_1
  | .r2 => Cluster.parent_2
  | .r3 => Cluster.parent_3

/-- The `meta_analyses` block the grouping loop reads for a round. -/
def Round.metaOf : Round → Cluster → MetaInfo
  | .r1 => Cluster.meta_1
  | .r2 => Cluster.meta_2
  | .r3 => Cluster.meta_3

/-- The id key of a round (`r1_`, `r2_`, `r3_`). -/
def Round.key : Round → Str
  | .r1 => ("r1_").data
  | .r2 => ("r2_").data
  | .r3 => ("r3_").data

/-- The `level` value of a round. -/
def Round.lvl : Round → Nat
  | .r1 => 1
  | .r2 => 2
  | .r3 => 3

/-- The result dict of `build_hierarchy_tree` (lines 283-292). -/
structure Hierarchy where
  individual_clusters : List Cluster
  round_1 : List MetaCluster
  round_2 : List MetaCluster
  round_3 : List MetaCluster
  total_clusters : Nat
  round_1_groups : Nat
  round_2_groups : Nat
  round_3_groups : Nat
deriving DecidableEq

/-- The grouping-and-sorting part of `build_hierarchy_tree` (lines
190-292), taking the already-assembled cluster sequence. -/
def buildHierarchy (clusters : List Cluster) : Hierarchy :=
  let m1 := buildRound Cluster.parent_1 Cluster.meta_1 (("r1_").data) 1 clusters
  let m2 := buildRound Cluster.parent_2 Cluster.meta_2 (("r2_").data) 2 clusters
  let m3 := buildRound Cluster.parent_3 Cluster.meta_3 (("r3_").data) 3 clusters
  { individual_clusters := clusters
    round_1 := m1
    round_2 := m2
    round_3 := m3
    total_clusters := clusters.length
    round_1_groups := m1.length
    round_2_groups := m2.length
    round_3_groups := m3.length }

/-- Round accessor on the result dict. -/
def Hierarchy.round (h : Hierarchy) : Round → List MetaCluster
  | .r1 => h.round_1
  | .r2 => h.round_2
  | .r3 => h.round_3

/-- Embeds the whole of `build_hierarchy_tree` (lines 120-292): per-row
assembly with the row position as id, then hierarchy building. -/
def build_hierarchy_tree (rows : List Row) : Hierarchy :=
  buildHierarchy (rows.enum.map (fun p => assembleCluster p.1 p.2))

/-- Embeds the round-1 ancestor-resolution loop body of
`generate_embeddings_for_level` (generate_embeddings.py lines 114-141) for
one cluster `c`: locate `c` in the round-1 sequence by id, find the first
round-2 meta-cluster whose children contain that ordinal, then the first
round-3 meta-cluster whose children contain the round-2 ordinal; any
failed hop yields the sentinel `Unknown`. -/
def resolve_level3_from_r1 (r1 r2 r3 : List MetaCluster) (c : MetaCluster) : Str :=
  match r1.findIdx? (fun x => decide (x.id = c.id)) with
  | Option.none => ("Unknown").data
  | some ci =>
    match r2.findIdx? (fun x => decide (ci ∈ x.children)) with
    | Option.none => ("Unknown").data
    | some p2 =>
      match r3.find? (fun x => decide (p2 ∈ x.children)) with
      | Option.none => ("Unknown").data
      | some m => m.name

/-- Embeds the round-2 loop body (generate_embeddings.py lines 150-168):
one hop shorter. -/
def resolve_level3_from_r2 (r2 r3 : List MetaCluster) (c : MetaCluster) : Str :=
  match r2.findIdx? (fun x => decide (x.id = c.id)) with
  | Option.none => ("Unknown").data
  | some ci =>
    match r3.find? (fun x => decide (ci ∈ x.children)) with
    | Option.none => ("Unknown").data
    | some m => m.name

/-- An all-empty `meta_analyses` block, for concrete test inputs. -/
def emptyMetaInfo : MetaInfo := ⟨[], [], [], [], [], []⟩

/-- A concrete cluster with given id and parent names and no text. -/
def mkClusterP (i : Nat) (p1 p2 p3 : Str) : Cluster :=
  ⟨i, [], [], [], [], [], [], [], 0, p1, p2, p3, emptyMetaInfo, emptyMetaInfo, emptyMetaInfo⟩

/-- Concrete input for the positional-indices check: cluster 0 has round-2
parent `B` and round-3 parent `A`; cluster 1 has no round-2 parent and
round-3 parent `A`. -/
def clustersIdx : List Cluster :=
  [ mkClusterP 0 [] (("B").data) (("A").data),
    mkClusterP 1 [] [] (("A").data) ]

/-- Concrete input for the partition witness: three clusters with round-1
parents `P`, `Unknown` and the empty string. -/
def clustersPart : List Cluster :=
  [ mkClusterP 0 (("P").data) [] [],
    mkClusterP 1 (("Unknown").data) [] [],
    mkClusterP 2 [] [] [] ]

/-- A meta-cluster with only a child count, for the sorting example. -/
def mcOfCount (n : Nat) : MetaCluster :=
  ⟨[], [], 0, [], [], [], [], [], [], n⟩

/-- A concrete meta-cluster for resolver inputs. -/
def mcOf (i : Str) (ch : List Nat) (nm : Str) : MetaCluster :=
  ⟨i, nm, 0, [], [], [], [], [], ch, ch.length⟩

/-- Concrete round-1 sequence for the resolver witness. -/
def r1W : List MetaCluster := [mcOf (("r1_0").data) [] []]

/-- Concrete round-2 sequence whose only children list does not contain
ordinal 0. -/
def r2W : List MetaCluster := [mcOf (("r2_0").data) [5] []]

/-- Concrete round-3 sequence for the resolver witness. -/
def r3W : List MetaCluster := [mcOf (("r3_0").data) [0] (("T").data)]

/-- The malformed-opening input `<f at content</f>`. -/
def xmlMalformed : Str := ("<f at content</f>").data

/-- The field name `f`. -/
def fldF : Str := ("f").data

/-- A second malformed-opening input, `<g 1 2</g>`. -/
def xmlMalformed2 : Str := ("<g 1 2</g>").data

/-- The field name `g`. -/
def fldG : Str := ("g").data

/-- A well-formed input `<k>hi</k>`. -/
def xmlWell : Str := ("<k>hi</k>").data

/-- The field name `k`. -/
def fldK : Str := ("k").data

/-- A row whose individual-analysis cell is present but holds no
`cluster_name` tags. -/
def rowNoTag : Row :=
  ⟨Option.none, some (("plain text, no tags").data), Option.none, Option.none, Option.none⟩

/-- A row whose individual-analysis cell holds a well-formed
`cluster_name`. -/
def rowWell : Row :=
  ⟨Option.none, some (("<cluster_name>Alpha</cluster_name>").data),
   Option.none, Option.none, Option.none⟩

/-- Base string for the cleanup witness: ends in `t`, outside the strip
set. -/
def cleanupBase : Str := ("<a>b</a>ht").data

/-- All member ids collected across a groups dict, in group order. -/
def groupIds (gs : List (Str × GroupData)) : List Nat :=
  (gs.map (fun g => g.2.ids)).flatten

theorem updateGroup_groupIds (gs : List (Str × GroupData)) (n : Str) (i : Nat) (m : MetaInfo) :
    (groupIds (updateGroup gs n i m)).Perm (groupIds gs ++ [i]) := by
  induction gs with
  | nil => simp [updateGroup, groupIds]
  | cons g rest ih =>
    obtain ⟨k, d⟩ := g
    by_cases hk : k = n
    · simp only [updateGroup, if_pos hk, groupIds, List.map_cons, List.flatten_cons,
        List.append_assoc, List.singleton_append]
      exact List.Perm.append_left _ (@List.perm_append_comm _ [i] _)
    · simp only [updateGroup, if_neg hk, groupIds, List.map_cons, List.flatten_cons,
        List.append_assoc]
      simp only [groupIds] at ih
      exact List.Perm.append_left _ ih

theorem buildGroups_aux_perm (sel : Cluster → Str) (ms : Cluster → MetaInfo) :
    ∀ (cs : List Cluster) (gs : List (Str × GroupData)),
      (groupIds (cs.foldl (groupStep sel ms) gs)).Perm
        (groupIds gs ++ (cs.filter (fun c => decide (sel c ≠ []))).map Cluster.id) := by
  intro cs
  induction cs with
  | nil => simp
  | cons c cs ih =>
    intro gs
    simp only [List.foldl_cons]
    by_cases hc : sel c = []
    · have hstep : groupStep sel ms gs c = gs := by simp [groupStep, hc]
      rw [hstep]
      simpa [List.filter_cons, hc] using ih gs
    · have hstep : groupStep sel ms gs c = updateGroup gs (sel c) c.id (ms c) := by
        simp [groupStep, hc]
      rw [hstep]
      refine (ih _).trans ?_
      refine (List.Perm.append_right _ (updateGroup_groupIds gs (sel c) c.id (ms c))).trans ?_
      have hflt : ((c :: cs).filter (fun c => decide (sel c ≠ []))).map Cluster.id
          = c.id :: (cs.filter (fun c => decide (sel c ≠ []))).map Cluster.id := by
        simp [List.filter_cons, hc]
      rw [hflt]
      simp only [List.append_assoc, List.singleton_append]
      exact List.Perm.refl _

theorem updateGroup_mem_ids (gs : List (Str × GroupData)) (n : Str) (i : Nat) (m : MetaInfo) :
    ∀ p ∈ updateGroup gs n i m, ∀ x ∈ p.2.ids,
      (∃ q ∈ gs, q.1 = p.1 ∧ x ∈ q.2.ids) ∨ (p.1 = n ∧ x = i) := by
  induction gs with
  | nil =>
    intro p hp x hx
    simp [updateGroup] at hp
    subst hp
    simp at hx
    exact Or.inr ⟨rfl, hx⟩
  | cons g rest ih =>
    obtain ⟨k, d⟩ := g
    intro p hp x hx
    by_cases hk : k = n
    · simp only [updateGroup, if_pos hk] at hp
      rcases List.mem_cons.mp hp with h1 | h2
      · subst h1
        simp only at hx
        rcases List.mem_append.mp hx with ha | hb
        · exact Or.inl ⟨(k, d), List.mem_cons_self _ _, rfl, ha⟩
        · simp at hb
          exact Or.inr ⟨hk, hb⟩
      · exact Or.inl ⟨p, List.mem_cons_of_mem _ h2, rfl, hx⟩
    · simp only [updateGroup, if_neg hk] at hp
      rcases List.mem_cons.mp hp with h1 | h2
      · subst h1
        exact Or.inl ⟨(k, d), List.mem_cons_self _ _, rfl, hx⟩
      · rcases ih p h2 x hx with ⟨q, hq, he, hm⟩ | hr
        · exact Or.inl ⟨q, List.mem_cons_of_mem _ hq, he, hm⟩
        · exact Or.inr hr

theorem buildGroups_mem_ids (sel : Cluster → Str) (ms : Cluster → MetaInfo)
    (Q : Str → Nat → Prop) :
    ∀ (cs : List Cluster) (gs : List (Str × GroupData)),
      (∀ p ∈ gs, ∀ x ∈ p.2.ids, Q p.1 x) →
      (∀ c ∈ cs, Q (sel c) c.id) →
      ∀ p ∈ cs.foldl (groupStep sel ms) gs, ∀ x ∈ p.2.ids, Q p.1 x := by
  intro cs
  induction cs with
  | nil =>
    intro gs hgs _ p hp
    exact hgs p hp
  | cons c cs ih =>
    intro gs hgs hcs
    simp only [List.foldl_cons]
    refine ih _ ?_ (fun c2 hc2 => hcs c2 (List.mem_cons_of_mem _ hc2))
    intro p hp x hx
    by_cases hc : sel c = []
    · simp only [groupStep, if_pos hc] at hp
      exact hgs p hp x hx
    · simp only [groupStep, if_neg hc] at hp
      rcases updateGroup_mem_ids gs (sel c) c.id (ms c) p hp x hx with ⟨q, hq, he, hm⟩ | ⟨h1, h2⟩
      · rw [← he]; exact hgs q hq x hm
      · rw [h1, h2]; exact hcs c (List.mem_cons_self _ _)

theorem mem_sortAsc (x : Nat) (l : List Nat) : x ∈ sortAsc l ↔ x ∈ l := by
  simp [sortAsc]

theorem materializeFrom_mem (rKey : Str) (lvl : Nat) :
    ∀ (gs : List (Str × GroupData)) (i : Nat) (m : MetaCluster),
      m ∈ materializeFrom rKey lvl i gs →
      ∃ n d, (n, d) ∈ gs ∧ ¬(n = [] ∨ n = ("Unknown").data) ∧
        m.name = n ∧ m.children = sortAsc d.ids := by
  intro gs
  induction gs with
  | nil => intro i m hm; simp [materializeFrom] at hm
  | cons g rest ih =>
    obtain ⟨n, d⟩ := g
    intro i m hm
    by_cases hn : n = [] ∨ n = ("Unknown").data
    · simp only [materializeFrom, if_pos hn] at hm
      obtain ⟨n2, d2, h1, h2, h3, h4⟩ := ih i m hm
      exact ⟨n2, d2, List.mem_cons_of_mem _ h1, h2, h3, h4⟩
    · simp only [materializeFrom, if_neg hn] at hm
      rcases List.mem_cons.mp hm with h1 | h2
      · exact ⟨n, d, List.mem_cons_self _ _, hn, by rw [h1]; rfl, by rw [h1]; rfl⟩
      · obtain ⟨n2, d2, h1, h2, h3, h4⟩ := ih (i + 1) m h2
        exact ⟨n2, d2, List.mem_cons_of_mem _ h1, h2, h3, h4⟩

theorem materializeFrom_exists (rKey : Str) (lvl : Nat) :
    ∀ (gs : List (Str × GroupData)) (i : Nat) (n : Str) (d : GroupData),
      (n, d) ∈ gs → ¬(n = [] ∨ n = ("Unknown").data) →
      ∃ m ∈ materializeFrom rKey lvl i gs, m.name = n ∧ m.children = sortAsc d.ids := by
  intro gs
  induction gs with
  | nil => intro i n d h; simp at h
  | cons g rest ih =>
    obtain ⟨k, e⟩ := g
    intro i n d hmem hn
    rcases List.mem_cons.mp hmem with h1 | h2
    · obtain ⟨hk, he⟩ := Prod.mk.injEq .. ▸ h1
      subst hk
      subst he
      simp only [materializeFrom, if_neg hn]
      exact ⟨mkMeta rKey lvl i n d, List.mem_cons_self _ _, rfl, rfl⟩
    · by_cases hk : k = [] ∨ k = ("Unknown").data
      · simp only [materializeFrom, if_pos hk]
        exact ih i n d h2 hn
      · simp only [materializeFrom, if_neg hk]
        obtain ⟨m, hm, h3, h4⟩ := ih (i + 1) n d h2 hn
        exact ⟨m, List.mem_cons_of_mem _ hm, h3, h4⟩

theorem buildGroups_groupIds_nodup (sel : Cluster → Str) (ms : Cluster → MetaInfo)
    (cs : List Cluster) (hnd : (cs.map Cluster.id).Nodup) :
    (groupIds (buildGroups sel ms cs)).Nodup := by
  have hperm := buildGroups_aux_perm sel ms cs []
  have h0 : groupIds ([] : List (Str × GroupData)) = [] := rfl
  rw [h0, List.nil_append] at hperm
  have hsub : ((cs.filter (fun c => decide (sel c ≠ []))).map Cluster.id).Sublist
      (cs.map Cluster.id) := (List.filter_sublist _).map Cluster.id
  have hrhs : ((cs.filter (fun c => decide (sel c ≠ []))).map Cluster.id).Nodup :=
    hnd.sublist hsub
  exact hperm.nodup_iff.mpr hrhs

theorem groups_pairwise_disjoint (gs : List (Str × GroupData))
    (hnd : (groupIds gs).Nodup) :
    gs.Pairwise (fun g g2 => ∀ x ∈ g.2.ids, x ∉ g2.2.ids) := by
  have h1 := (List.nodup_flatten.mp hnd).2
  rw [List.pairwise_map] at h1
  refine h1.imp ?_
  intro a b hab x hxa hxb
  exact hab hxa hxb

theorem materializeFrom_pairwise (rKey : Str) (lvl : Nat) :
    ∀ (gs : List (Str × GroupData)) (i : Nat),
      gs.Pairwise (fun g g2 => ∀ x ∈ g.2.ids, x ∉ g2.2.ids) →
      (materializeFrom rKey lvl i gs).Pairwise
        (fun m m2 => ∀ x ∈ m.children, x ∉ m2.children) := by
  intro gs
  induction gs with
  | nil => intro i _; simp [materializeFrom]
  | cons g rest ih =>
    obtain ⟨n, d⟩ := g
    intro i hp
    rcases List.pairwise_cons.mp hp with ⟨hd, htl⟩
    by_cases hn : n = [] ∨ n = ("Unknown").data
    · simp only [materializeFrom, if_pos hn]
      exact ih i htl
    · simp only [materializeFrom, if_neg hn]
      refine List.pairwise_cons.mpr ⟨?_, ih (i + 1) htl⟩
      intro m2 hm2 x hx
      obtain ⟨n2, d2, hmem2, _, _, hch2⟩ := materializeFrom_mem rKey lvl rest (i + 1) m2 hm2
      have hxd : x ∈ d.ids := by
        have hch : (mkMeta rKey lvl i n d).children = sortAsc d.ids := rfl
        rw [hch] at hx
        exact (mem_sortAsc x d.ids).mp hx
      rw [hch2]
      rw [mem_sortAsc]
      exact hd (n2, d2) hmem2 x hxd

theorem buildRound_mem_iff (sel : Cluster → Str) (ms : Cluster → MetaInfo)
    (rKey : Str) (lvl : Nat) (cs : List Cluster)
    (hnd : (cs.map Cluster.id).Nodup) (x : Nat) :
    (∃ m ∈ buildRound sel ms rKey lvl cs, x ∈ m.children) ↔
    (∃ c ∈ cs, c.id = x ∧ ¬ sel c = [] ∧ ¬ sel c = ("Unknown").data) := by
  constructor
  · rintro ⟨m, hm, hx⟩
    have hm2 : m ∈ materializeFrom rKey lvl 0 (buildGroups sel ms cs) := by
      simpa [buildRound, sortByCountDesc] using hm
    obtain ⟨n, d, hmem, hkept, _, hch⟩ := materializeFrom_mem rKey lvl _ 0 m hm2
    rw [hch, mem_sortAsc] at hx
    have hQ := buildGroups_mem_ids sel ms (fun n x => ∃ c ∈ cs, c.id = x ∧ sel c = n) cs []
      (by simp) (fun c hc => ⟨c, hc, rfl, rfl⟩) (n, d) hmem x hx
    obtain ⟨c, hc, hid, hsel⟩ := hQ
    push_neg at hkept
    exact ⟨c, hc, hid, by rw [hsel]; exact hkept.1, by rw [hsel]; exact hkept.2⟩
  · rintro ⟨c, hc, hid, h1, h2⟩
    have hmemflt : c ∈ cs.filter (fun c => decide (sel c ≠ [])) :=
      List.mem_filter.mpr ⟨hc, by simp [h1]⟩
    have hin : x ∈ (cs.filter (fun c => decide (sel c ≠ []))).map Cluster.id :=
      List.mem_map.mpr ⟨c, hmemflt, hid⟩
    have hperm := buildGroups_aux_perm sel ms cs []
    have h0 : groupIds ([] : List (Str × GroupData)) = [] := rfl
    rw [h0, List.nil_append] at hperm
    have hgid : x ∈ groupIds (buildGroups sel ms cs) := hperm.mem_iff.mpr hin
    simp only [groupIds] at hgid
    obtain ⟨ids, hids, hxids⟩ := List.mem_flatten.mp hgid
    obtain ⟨g, hg, hgeq⟩ := List.mem_map.mp hids
    rw [← hgeq] at hxids
    have hQ := buildGroups_mem_ids sel ms (fun n x => ∃ c ∈ cs, c.id = x ∧ sel c = n) cs []
      (by simp) (fun c hc => ⟨c, hc, rfl, rfl⟩) g hg x hxids
    obtain ⟨c2, hc2, hid2, hsel2⟩ := hQ
    have hcc : c2 = c :=
      List.inj_on_of_nodup_map hnd hc2 hc (by rw [hid2, hid])
    have hg1 : g.1 = sel c := by rw [← hsel2, hcc]
    have hkept : ¬(g.1 = [] ∨ g.1 = ("Unknown").data) := by
      rw [hg1]
      push_neg
      exact ⟨h1, h2⟩
    obtain ⟨m, hm, _, hch⟩ := materializeFrom_exists rKey lvl (buildGroups sel ms cs) 0 g.1 g.2
      (by simpa using hg) hkept
    refine ⟨m, ?_, ?_⟩
    · simpa [buildRound, sortByCountDesc] using hm
    · rw [hch, mem_sortAsc]
      exact hxids

theorem buildRound_pairwise_disjoint (sel : Cluster → Str) (ms : Cluster → MetaInfo)
    (rKey : Str) (lvl : Nat) (cs : List Cluster)
    (hnd : (cs.map Cluster.id).Nodup) :
    (buildRound sel ms rKey lvl cs).Pairwise
      (fun m m2 => ∀ x ∈ m.children, x ∉ m2.children) := by
  have h1 := buildGroups_groupIds_nodup sel ms cs hnd
  have h2 := groups_pairwise_disjoint _ h1
  have h3 := materializeFrom_pairwise rKey lvl _ 0 h2
  have hsymm : Symmetric (fun m m2 : MetaCluster => ∀ x ∈ m.children, x ∉ m2.children) := by
    intro a b h x hxb hxa
    exact h x hxa hxb
  exact ((List.perm_insertionSort countGe _).pairwise_iff (fun hab => hsymm hab)).mpr h3

theorem hierarchy_round_def (cs : List Cluster) (k : Round) :
    (buildHierarchy cs).round k
      = buildRound (k.parentOf) (k.metaOf) (k.key) (k.lvl) cs := by
  cases k <;> rfl

theorem filter_count_orderedInsert (n : Nat) (a : MetaCluster) (l : List MetaCluster) :
    (List.orderedInsert countGe a l).filter (fun m => decide (m.child_count = n))
      = if a.child_count = n then
          a :: l.filter (fun m => decide (m.child_count = n))
        else l.filter (fun m => decide (m.child_count = n)) := by
  induction l with
  | nil => by_cases h : a.child_count = n <;> simp [List.orderedInsert, h]
  | cons b bs ih =>
    by_cases hab : countGe a b
    · by_cases h : a.child_count = n <;>
        simp [List.orderedInsert, hab, h]
    · have hb : a.child_count < b.child_count := Nat.lt_of_not_le hab
      by_cases h : a.child_count = n
      · have hbn : ¬ b.child_count = n := by omega
        simp [List.orderedInsert, hab, h, hbn, ih]
      · by_cases hbn : b.child_count = n <;>
          simp [List.orderedInsert, hab, h, hbn, ih]

theorem filter_count_sortDesc (n : Nat) (l : List MetaCluster) :
    (sortByCountDesc l).filter (fun m => decide (m.child_count = n))
      = l.filter (fun m => decide (m.child_count = n)) := by
  induction l with
  | nil => rfl
  | cons a l ih =>
    simp only [sortByCountDesc, List.insertionSort] at ih ⊢
    rw [filter_count_orderedInsert, ih]
    by_cases h : a.child_count = n <;> simp [h]

theorem stripChars_cons_of_mem (p : Char → Bool) (c : Char) (l : Str) (h : p c = true) :
    stripChars p (c :: l) = stripChars p l := by
  simp [stripChars, List.dropWhile_cons, h]

theorem stripChars_concat_of_mem (p : Char → Bool) (c : Char) (l : Str) (h : p c = true) :
    stripChars p (l ++ [c]) = stripChars p l := by
  unfold stripChars
  rw [List.dropWhile_append]
  by_cases he : (l.dropWhile p).isEmpty
  · simp [he, h, List.isEmpty_iff.mp he]
  · simp [he, List.dropWhile_cons, h]

/-- C1: the claim says round-2/3 children hold positional indices into the
round-below's post-sort sequence, with every round-3 child index below the
round-2 length.  Evaluating `build_hierarchy_tree`'s builder on
`clustersIdx` (two clusters sharing round-3 parent `A`, only one with a
round-2 parent `B`) shows the round-3 children are the individual-cluster
row ids `[0, 1]` while round 2 has length 1, so the bound fails: the code
stores cluster ids, not positional indices, in every round. -/
theorem C1_round23_children_are_row_ids :
    ((buildHierarchy clustersIdx).round .r3).map MetaCluster.children = [[0, 1]]
    ∧ ((buildHierarchy clustersIdx).round .r2).length = 1
    ∧ ¬ (∀ m ∈ (buildHierarchy clustersIdx).round .r3, ∀ x ∈ m.children,
          x < ((buildHierarchy clustersIdx).round .r2).length) := by decide

/-- C2 counterexample: for an absent raw value the decoder returns the
empty dict, which does not contain every requested field as a key. -/
theorem C2_absent_not_full_mapping :
    ¬ (∀ f ∈ individualFields, f ∈ (parse_xml_robust_d Option.none false).map Prod.fst) := by
  decide

/-- C2 amended: for every PRESENT raw value (the empty string included)
the decoder returns a mapping containing every field of the requested
field set as a key; for an absent value it returns the EMPTY mapping (no
keys at all) without invoking extraction.  Stated for any extractor, so it
covers both `parse_xml_robust_d` and `parse_xml_robust_h`. -/
theorem C2_decoder_keys_amended :
    (∀ (ex : Str → Str → Str) (s : Str) (b : Bool) (f : Str),
        f ∈ (if b then metaFields else individualFields) →
        f ∈ (parse_xml_robust_with ex (some s) b).map Prod.fst)
    ∧ (∀ (ex : Str → Str → Str) (b : Bool),
        parse_xml_robust_with ex Option.none b = []) := by
  constructor
  · intro ex s b f hf
    have hkeys : (parse_xml_robust_with ex (some s) b).map Prod.fst
        = (if b then metaFields else individualFields) := by
      simp [parse_xml_robust_with, Function.comp_def]
    rw [hkeys]
    exact hf
  · intro ex b
    rfl

/-- C2 witness: instantiation at the empty raw string and the
`cluster_name` field. -/
theorem C2_decoder_keys_witness :
    (("cluster_name").data ∈ (if false then metaFields else individualFields))
    ∧ ("cluster_name").data
        ∈ (parse_xml_robust_with extract_xml_field_d (some []) false).map Prod.fst :=
  ⟨by decide,
    C2_decoder_keys_amended.1 extract_xml_field_d [] false (("cluster_name").data) (by decide)⟩

/-- C3: for every cluster sequence with distinct ids and every round, the
union of the children of that round's meta-clusters is exactly the set of
ids of clusters whose parent name for the round is non-empty and not the
literal `Unknown`, and no id occurs in the children of two different
meta-clusters of the round. -/
theorem C3_round_partition (cs : List Cluster) (k : Round)
    (hnd : (cs.map Cluster.id).Nodup) :
    (∀ x : Nat,
        (∃ m ∈ (buildHierarchy cs).round k, x ∈ m.children) ↔
        (∃ c ∈ cs, c.id = x ∧ ¬ k.parentOf c = [] ∧ ¬ k.parentOf c = ("Unknown").data))
    ∧ (∀ i j : Nat, ∀ hi : i < ((buildHierarchy cs).round k).length,
        ∀ hj : j < ((buildHierarchy cs).round k).length, i ≠ j →
        ∀ x ∈ (((buildHierarchy cs).round k).get ⟨i, hi⟩).children,
          x ∉ (((buildHierarchy cs).round k).get ⟨j, hj⟩).children) := by
  constructor
  · intro x
    rw [hierarchy_round_def]
    exact buildRound_mem_iff k.parentOf k.metaOf k.key k.lvl cs hnd x
  · have hpw : ((buildHierarchy cs).round k).Pairwise
        (fun m m2 => ∀ x ∈ m.children, x ∉ m2.children) := by
      rw [hierarchy_round_def]
      exact buildRound_pairwise_disjoint k.parentOf k.metaOf k.key k.lvl cs hnd
    intro i j hi hj hij x hxi
    rcases Nat.lt_or_ge i j with h | h
    · have hr := List.pairwise_iff_getElem.mp hpw i j hi hj h
      simp only [List.get_eq_getElem]
      simp only [List.get_eq_getElem] at hxi
      exact hr x hxi
    · have hji : j < i := Nat.lt_of_le_of_ne h (Ne.symm hij)
      have hr := List.pairwise_iff_getElem.mp hpw j i hj hi hji
      simp only [List.get_eq_getElem]
      simp only [List.get_eq_getElem] at hxi
      intro hxj
      exact hr x hxj hxi

/-- C3 witness: the partition property at a concrete three-cluster input
whose round-1 parents are `P`, `Unknown` and the empty string. -/
theorem C3_round_partition_witness :
    ((clustersPart.map Cluster.id).Nodup) ∧
    ((∀ x : Nat,
        (∃ m ∈ (buildHierarchy clustersPart).round .r1, x ∈ m.children) ↔
        (∃ c ∈ clustersPart, c.id = x ∧ ¬ Round.r1.parentOf c = [] ∧
          ¬ Round.r1.parentOf c = ("Unknown").data))
      ∧ (∀ i j : Nat, ∀ hi : i < ((buildHierarchy clustersPart).round .r1).length,
          ∀ hj : j < ((buildHierarchy clustersPart).round .r1).length, i ≠ j →
          ∀ x ∈ (((buildHierarchy clustersPart).round .r1).get ⟨i, hi⟩).children,
            x ∉ (((buildHierarchy clustersPart).round .r1).get ⟨j, hj⟩).children)) :=
  ⟨by decide, C3_round_partition clustersPart .r1 (by decide)⟩

/-- C4 counterexample: on a row whose individual-analysis cell is present
but contains no `cluster_name` tags, the extracted value is the empty
string yet the assembled name is the empty string, not `Cluster 0` — the
fallback does not fire on an empty extracted value. -/
theorem C4_empty_name_no_fallback :
    pyGet (parse_xml_robust_h rowNoTag.cluster_name false) (("cluster_name").data) [] = []
    ∧ (assembleCluster 0 rowNoTag).name = []
    ∧ ¬ (assembleCluster 0 rowNoTag).name = ("Cluster 0").data := by decide

/-- C4 amended: the assembled name is the decoded `cluster_name` value
whenever the raw cell is present (even when that value is the empty
string); the `Cluster {row_index}` fallback fires exactly when the raw
cell is absent, because only then does the decoder return a mapping
lacking the key. -/
theorem C4_name_fallback_amended (idx : Nat) (row : Row) :
    (row.cluster_name = Option.none →
      (assembleCluster idx row).name = ("Cluster ").data ++ natStr idx)
    ∧ (∀ s, row.cluster_name = some s →
      (assembleCluster idx row).name
        = extract_xml_field_h (cleanupXml s) (("cluster_name").data)) := by
  obtain ⟨a, b, c, d, e⟩ := row
  constructor
  · intro h
    simp only at h
    subst h
    rfl
  · intro s h
    simp only at h
    subst h
    rfl

/-- C4 witness: instantiation at a row with a well-formed
`cluster_name`. -/
theorem C4_name_fallback_witness :
    (rowWell.cluster_name = some (("<cluster_name>Alpha</cluster_name>").data))
    ∧ (assembleCluster 3 rowWell).name
        = extract_xml_field_h (cleanupXml (("<cluster_name>Alpha</cluster_name>").data))
            (("cluster_name").data) :=
  ⟨rfl, (C4_name_fallback_amended 3 rowWell).2 _ rfl⟩

/-- C5: on the malformed-opening input `<f at content</f>` the fallback
extraction returns `at content` — the malformed-fragment characters are
INCLUDED, because both regex groups are lazy and the engine extends the
second group first, leaving the fragment group empty; the claim (and the
code's own comment) say the fragment is skipped, which would give
`content`. -/
theorem C5_fallback_keeps_fragment :
    extract_xml_field_h xmlMalformed fldF = ("at content").data
    ∧ ¬ extract_xml_field_h xmlMalformed fldF = ("content").data := by decide

/-- C6: for every cluster sequence and round, the built round sequence is
the stable descending-by-child-count sort of the pre-sort sequence: a
permutation, sorted under `countGe`, preserving the relative order of
equal-count meta-clusters (the filter at each count is unchanged); and
groups of sizes 5, 2, 8 come out as 8, 5, 2. -/
theorem C6_round_sort_stable_desc (cs : List Cluster) (k : Round) :
    (buildHierarchy cs).round k
        = sortByCountDesc (roundPre k.parentOf k.metaOf k.key k.lvl cs)
    ∧ List.Perm ((buildHierarchy cs).round k)
        (roundPre k.parentOf k.metaOf k.key k.lvl cs)
    ∧ List.Sorted countGe ((buildHierarchy cs).round k)
    ∧ (∀ n : Nat,
        ((buildHierarchy cs).round k).filter (fun m => decide (m.child_count = n))
          = (roundPre k.parentOf k.metaOf k.key k.lvl cs).filter
              (fun m => decide (m.child_count = n)))
    ∧ (sortByCountDesc [mcOfCount 5, mcOfCount 2, mcOfCount 8]).map MetaCluster.child_count
        = [8, 5, 2] := by
  have h0 : (buildHierarchy cs).round k
      = sortByCountDesc (roundPre k.parentOf k.metaOf k.key k.lvl cs) := by
    cases k <;> rfl
  refine ⟨h0, ?_, ?_, ?_, by decide⟩
  · rw [h0]
    exact List.perm_insertionSort countGe _
  · rw [h0]
    exact List.sorted_insertionSort countGe _
  · intro n
    rw [h0]
    exact filter_count_sortDesc n _

/-- C7 counterexample: the empty-string raw membership value does NOT
short-circuit: the literal-evaluation strategy is attempted and the
parse-failure diagnostic is recorded. -/
theorem C7_empty_string_attempts_parse :
    (parse_item_ids (some [])).attempted = true
    ∧ (parse_item_ids (some [])).diag = true := by decide

/-- C7 amended: an absent (None/NaN) raw value short-circuits to the empty
sequence with no parse attempt and no diagnostic; the empty string instead
goes through literal evaluation (which fails), misses the bracket
fallback, records the diagnostic, and returns the empty sequence. -/
theorem C7_short_circuit_amended :
    parse_item_ids Option.none = ⟨[], false, false⟩
    ∧ parse_item_ids (some []) = ⟨[], true, true⟩ := by decide

/-- C8: the ancestor resolver returns the sentinel `Unknown` whenever a
hop fails: when no round-2 children list contains the source round-1
ordinal; when a round-2 parent is found but no round-3 children list
contains its ordinal; and, from source round 2, when no round-3 children
list contains the source ordinal.  The sentinel is the returned value of a
total function, not an error. -/
theorem C8_resolver_returns_unknown :
    (∀ (r1 r2 r3 : List MetaCluster) (c : MetaCluster) (ci : Nat),
        r1.findIdx? (fun x => decide (x.id = c.id)) = some ci →
        (∀ m ∈ r2, ci ∉ m.children) →
        resolve_level3_from_r1 r1 r2 r3 c = ("Unknown").data)
    ∧ (∀ (r1 r2 r3 : List MetaCluster) (c : MetaCluster) (ci p2 : Nat),
        r1.findIdx? (fun x => decide (x.id = c.id)) = some ci →
        r2.findIdx? (fun x => decide (ci ∈ x.children)) = some p2 →
        (∀ m ∈ r3, p2 ∉ m.children) →
        resolve_level3_from_r1 r1 r2 r3 c = ("Unknown").data)
    ∧ (∀ (r2 r3 : List MetaCluster) (c : MetaCluster) (ci : Nat),
        r2.findIdx? (fun x => decide (x.id = c.id)) = some ci →
        (∀ m ∈ r3, ci ∉ m.children) →
        resolve_level3_from_r2 r2 r3 c = ("Unknown").data) := by
  refine ⟨?_, ?_, ?_⟩
  · intro r1 r2 r3 c ci hfi hnone
    have h2 : r2.findIdx? (fun x => decide (ci ∈ x.children)) = Option.none := by
      rw [List.findIdx?_eq_none_iff]
      intro x hx
      simp [hnone x hx]
    simp only [resolve_level3_from_r1, hfi, h2]
  · intro r1 r2 r3 c ci p2 hfi hf2 hnone
    have h3 : r3.find? (fun x => decide (p2 ∈ x.children)) = Option.none :=
      List.find?_eq_none.mpr (fun x hx => by simp [hnone x hx])
    simp only [resolve_level3_from_r1, hfi, hf2, h3]
  · intro r2 r3 c ci hfi hnone
    have h3 : r3.find? (fun x => decide (ci ∈ x.children)) = Option.none :=
      List.find?_eq_none.mpr (fun x hx => by simp [hnone x hx])
    simp only [resolve_level3_from_r2, hfi, h3]

/-- C8 witness: a concrete orphaned round-1 cluster whose ordinal 0 is in
no round-2 children list resolves to `Unknown`. -/
theorem C8_resolver_returns_unknown_witness :
    (r1W.findIdx? (fun x => decide (x.id = (mcOf (("r1_0").data) [] []).id)) = some 0)
    ∧ (∀ m ∈ r2W, (0 : Nat) ∉ m.children)
    ∧ resolve_level3_from_r1 r1W r2W r3W (mcOf (("r1_0").data) [] []) = ("Unknown").data :=
  ⟨by decide, by decide,
    C8_resolver_returns_unknown.1 r1W r2W r3W (mcOf (("r1_0").data) [] []) 0
      (by decide) (by decide)⟩

/-- C9 counterexample: on `<g 1 2</g>` the data_parser extractor returns
the empty string while the hierarchy extractor recovers `1 2` through its
fallback, so the two copies are not behaviourally equivalent. -/
theorem C9_extractors_differ :
    ¬ (extract_xml_field_d xmlMalformed2 fldG = extract_xml_field_h xmlMalformed2 fldG) := by
  decide

/-- C9 amended: the two extractor copies agree on every input where the
primary well-formed pattern matches and on every input where the
hierarchy fallback also fails to match; conversely, whenever the two
copies differ, the primary pattern failed, the fallback matched, and the
data_parser copy returned the empty string — so they differ AT MOST on
inputs recovered only by the fallback (on some such inputs, e.g.
`<f</f>` with empty inner text, the copies still agree on the empty
string). -/
theorem C9_extractors_agree_amended :
    (∀ t f : Str,
        (extractPrimary t f).isSome = true ∨ extractFallback t f = Option.none →
        extract_xml_field_d t f = extract_xml_field_h t f)
    ∧ (∀ t f : Str,
        extract_xml_field_d t f ≠ extract_xml_field_h t f →
        extractPrimary t f = Option.none ∧ (extractFallback t f).isSome = true
          ∧ extract_xml_field_d t f = []) := by
  constructor
  · intro t f h
    unfold extract_xml_field_d extract_xml_field_h
    cases hp : extractPrimary t f with
    | some g => rfl
    | none =>
      cases h with
      | inl h1 => rw [hp] at h1; simp at h1
      | inr h2 => rw [h2]
  · intro t f hne
    cases hp : extractPrimary t f with
    | some g =>
      exfalso
      apply hne
      unfold extract_xml_field_d extract_xml_field_h
      rw [hp]
    | none =>
      cases hf : extractFallback t f with
      | none =>
        exfalso
        apply hne
        unfold extract_xml_field_d extract_xml_field_h
        rw [hp, hf]
      | some g =>
        refine ⟨rfl, rfl, ?_⟩
        unfold extract_xml_field_d
        rw [hp]

/-- C9 witness: the agreement direction instantiated at the well-formed
input `<k>hi</k>`, and the difference characterization instantiated at
the fallback-only input `<g 1 2</g>`. -/
theorem C9_extractors_agree_witness :
    (((extractPrimary xmlWell fldK).isSome = true ∨ extractFallback xmlWell fldK = Option.none)
      ∧ extract_xml_field_d xmlWell fldK = extract_xml_field_h xmlWell fldK)
    ∧ ((extract_xml_field_d xmlMalformed2 fldG ≠ extract_xml_field_h xmlMalformed2 fldG)
      ∧ extractPrimary xmlMalformed2 fldG = Option.none
      ∧ (extractFallback xmlMalformed2 fldG).isSome = true
      ∧ extract_xml_field_d xmlMalformed2 fldG = []) :=
  ⟨⟨Or.inl (by decide), C9_extractors_agree_amended.1 xmlWell fldK (Or.inl (by decide))⟩,
   ⟨by decide, C9_extractors_agree_amended.2 xmlMalformed2 fldG (by decide)⟩⟩

/-- C10: the cleanup step treats `'```xml'` as a character set, so adding
any of backtick, `x`, `m`, `l` at either end of a raw string does not
change the cleaned result — the character is stripped even with no code
fence present. -/
theorem C10_cleanup_strips_charset (l : Str) (c : Char) (h : c ∈ fenceChars) :
    cleanupXml (c :: l) = cleanupXml l ∧ cleanupXml (l ++ [c]) = cleanupXml l := by
  have hb : (fun ch => decide (ch ∈ fenceChars)) c = true := by simp [h]
  constructor
  · unfold cleanupXml pyStripSet
    rw [stripChars_cons_of_mem _ c l hb]
  · unfold cleanupXml pyStripSet
    rw [stripChars_concat_of_mem _ c l hb]

/-- C10 witness: appending `l` to a raw value ending in `ht` leaves the
cleaned result unchanged (the trailing letter is stripped). -/
theorem C10_cleanup_strips_charset_witness :
    ('l' ∈ fenceChars) ∧ cleanupXml (cleanupBase ++ ['l']) = cleanupXml cleanupBase :=
  ⟨by decide, (C10_cleanup_strips_charset cleanupBase 'l' (by decide)).2⟩
